import Mathlib

/-!
Verification of the adaptive media-processing pipeline of the recipe server.

The definitions below are shallow embeddings of the Python source:
* `src/src/services.py` — evidence-quality scorer (`_analyze_subtitle_quality`),
  processing-strategy choice (`_determine_processing_strategy`), the frame
  sampler (`_extract_frames_intelligently` and its position helpers), and the
  cascading recipe-JSON recovery (`_parse_recipe_json`,
  `_validate_recipe_structure`, `_create_fallback_recipe`).
* `src/src/tiktok_scraper.py` and `src/src/tasks.py` — the job pipeline's
  failure handling.
* `src/src/websocket_manager.py` — the progress broadcaster's connection map.

Machine text is modelled as `List Char`; Python `int()` / `//` on non-negative
values is modelled by `Nat` division and rational floors.
-/

namespace RecipeServer

/-! ## Basic text utilities (Python `str` operations on `List Char`) -/

/-- Python whitespace, as used by `str.strip` / `str.split()` (ASCII range). -/
def isPyWs (c : Char) : Bool :=
  c = ' ' || c = '\t' || c = '\n' || c = '\x0d' || c = '\x0b' || c = '\x0c'

/-- `str.lower` (ASCII case folding, matching the lowercase inputs used here). -/
def lowerL (l : List Char) : List Char :=
  l.map Char.toLower

/-- `str.strip()`: drop leading and trailing whitespace. -/
def stripL (l : List Char) : List Char :=
  ((l.dropWhile isPyWs).reverse.dropWhile isPyWs).reverse

/-- Does `l` start with `p`? (Python `str.startswith`.) -/
def startsWithL : List Char → List Char → Bool
  | [], _ => true
  | _ :: _, [] => false
  | a :: as, b :: bs => a = b && startsWithL as bs

/-- Python substring test `needle in hay`. -/
def containsSub (n : List Char) : List Char → Bool
  | [] => n.isEmpty
  | c :: t => startsWithL n (c :: t) || containsSub n t

/-- Number of words of `str.split()` (maximal runs of non-whitespace). -/
def wordCountAux : Bool → List Char → Nat
  | _, [] => 0
  | inw, c :: t =>
    if isPyWs c then wordCountAux false t
    else (if inw then 0 else 1) + wordCountAux true t

def wordCount (l : List Char) : Nat :=
  wordCountAux false l

/-! ## Evidence Quality Scorer — `OpenAIService._analyze_subtitle_quality` -/

/-- The fixed cooking-domain keyword list of `_analyze_subtitle_quality`
(`recipe_keywords` in the source; note `butter` appears twice there). -/
def recipeKeywords : List (List Char) :=
  ["zutaten".data, "rezept".data, "kochen".data, "backen".data, "mischen".data,
   "rühren".data, "teig".data, "ofen".data, "pfanne".data, "topf".data,
   "minuten".data, "grad".data, "salz".data, "pfeffer".data, "zwiebel".data,
   "knoblauch".data, "öl".data, "butter".data, "mehl".data, "zucker".data,
   "ei".data, "ingredients".data, "recipe".data, "cooking".data, "baking".data,
   "mix".data, "stir".data, "dough".data, "oven".data, "pan".data, "pot".data,
   "minutes".data, "degrees".data, "salt".data, "pepper".data, "onion".data,
   "garlic".data, "oil".data, "butter".data, "flour".data, "sugar".data,
   "egg".data]

/-- The fixed action keyword list (`action_keywords` in the source). -/
def actionKeywords : List (List Char) :=
  ["hinzufügen".data, "vermischen".data, "erhitzen".data, "braten".data,
   "dünsten".data, "würzen".data, "add".data, "mix".data, "heat".data,
   "fry".data, "sauté".data, "season".data, "bake".data, "boil".data]

/-- Count of keywords from `kws` occurring in the (already lowered) text. -/
def keywordCount (kws : List (List Char)) (low : List Char) : Nat :=
  (kws.filter (fun k => containsSub (lowerL k) low)).length

/-- Regex `\d`. -/
def isDigitC (c : Char) : Bool := c.isDigit

/-- Regex `\w` (ASCII part), for the `\b` word boundary in `g\b`. -/
def isWordC (c : Char) : Bool := c.isAlphanum || c = '_'

/-- Word boundary holds after the previous character iff the next character is
absent or not a word character. -/
def boundaryAfter : List Char → Bool
  | [] => true
  | d :: _ => !isWordC d

/-- Search for `\d+\s*` followed by a unit checked by `check`: the body of the
`re.search` calls for the digit-prefixed `quantity_patterns`. -/
def numUnitSearch (check : List Char → Bool) : List Char → Bool
  | [] => false
  | c :: t =>
    (isDigitC c && check ((t.dropWhile isDigitC).dropWhile isPyWs)) ||
      numUnitSearch check t

/-- `(gramm?|g\b)` (matched case-insensitively on lowered text). -/
def unitGram (r : List Char) : Bool :=
  startsWithL "gram".data r ||
    (match r with
     | 'g' :: r' => boundaryAfter r'
     | _ => false)

/-- `(ml|liter)` -/
def unitMl (r : List Char) : Bool :=
  startsWithL "ml".data r || startsWithL "liter".data r

/-- `(tasse|cup)` -/
def unitCup (r : List Char) : Bool :=
  startsWithL "tasse".data r || startsWithL "cup".data r

/-- `(löffel|spoon)` -/
def unitSpoon (r : List Char) : Bool :=
  startsWithL "löffel".data r || startsWithL "spoon".data r

/-- `(stück|piece)` -/
def unitPiece (r : List Char) : Bool :=
  startsWithL "stück".data r || startsWithL "piece".data r

/-- `minuten?` — a match exists iff `minute` occurs. -/
def unitMinute (r : List Char) : Bool :=
  startsWithL "minute".data r

/-- `grad` -/
def unitGrad (r : List Char) : Bool :=
  startsWithL "grad".data r

/-- The fixed `quantity_patterns` list, one matcher per pattern, applied to the
lowered text (the source passes `re.IGNORECASE`). -/
def quantityMatchers : List (List Char → Bool) :=
  [numUnitSearch unitGram, numUnitSearch unitMl, numUnitSearch unitCup,
   numUnitSearch unitSpoon, numUnitSearch unitPiece, numUnitSearch unitMinute,
   numUnitSearch unitGrad, containsSub "prise".data, containsSub "pinch".data,
   containsSub "handful".data, containsSub "etwas".data, containsSub "some".data]

/-- Number of quantity patterns with at least one match. -/
def quantityCount (low : List Char) : Nat :=
  (quantityMatchers.filter (fun m => m low)).length

/-- Length-based part of the score. -/
def lengthBonus (n : Nat) : Nat :=
  if n > 200 then 25 else if n > 100 then 15 else 0

/-- The parts of `subtitles.split('.')`. -/
def sentenceParts (subs : List Char) : List (List Char) :=
  subs.splitOn '.'

/-- Total word count over all sentence parts
(`sum(len(s.split()) for s in sentences)`). -/
def sentenceWordSum (subs : List Char) : Nat :=
  ((sentenceParts subs).map wordCount).sum

/-- `max(len(sentences), 1)`, the divisor of the average. -/
def sentenceCount (subs : List Char) : Nat :=
  max (sentenceParts subs).length 1

/-- Sentence-coherence part of the score.  The source compares the average
`W / P` (float) against 5 and 3; with `P > 0` this is exactly `W > 5*P`
resp. `W > 3*P`, which is how the comparison is stated here. -/
def coherenceBonus (subs : List Char) : Nat :=
  if 5 * sentenceCount subs < sentenceWordSum subs then 10
  else if 3 * sentenceCount subs < sentenceWordSum subs then 5
  else 0

/-- `OpenAIService._analyze_subtitle_quality`: additive score, capped at 100. -/
def analyzeSubtitleQuality (subs : List Char) : Nat :=
  if subs = [] then 0
  else
    let low := lowerL subs
    let score :=
      lengthBonus subs.length +
      min (keywordCount recipeKeywords low * 5) 30 +
      min (keywordCount actionKeywords low * 3) 20 +
      min (quantityCount low * 4) 25 +
      coherenceBonus subs
    min score 100

/-! ## Processing strategy — `OpenAIService._determine_processing_strategy`

The source function receives `(combined_text, subtitles, frames)` but reads
only `subtitles`; the guard and the score use the subtitle text alone.  The
spec's strategy name `full_frames` denotes the source's `"full_processing"`. -/

inductive Strategy where
  | text_only
  | reduced_frames
  | full_processing
  deriving DecidableEq, Repr

def determineProcessingStrategy (subtitles : List Char) : Strategy :=
  if subtitles = [] ∨ (stripL subtitles).length < 50 then .full_processing
  else
    let score := analyzeSubtitleQuality subtitles
    if score > 80 then .text_only
    else if score > 50 then .reduced_frames
    else .full_processing

/-! ## Frame Sampler — `VideoProcessor._extract_frames_intelligently`

Frame indices are natural numbers.  The source computes positions with Python
floats and truncates with `int(...)`; all values involved are non-negative, so
`int` is the floor.  The embedding uses the exact (real-number) value of each
float expression: `int(total * 0.05)` is `⌊total/20⌋`, `int(total * (1-0.05))`
is `⌊19*total/20⌋` (in binary floating point `1 - 0.05` is exactly the double
`0.95`), and `int(start + i*step)` with `step = (end-start)/(count-1)` is
`start + i*(end-start) / (count-1)` with `Nat` division. -/

/-- `start_frame = int(total_frames * skip_start_percent)` with 5% skipped. -/
def startFrame (total : Nat) : Nat :=
  total / 20

/-- `end_frame = int(total_frames * (1 - skip_end_percent))` with 5% skipped. -/
def endFrame (total : Nat) : Nat :=
  19 * total / 20

/-- `VideoProcessor._get_evenly_spaced_positions`. -/
def getEvenlySpacedPositions (s e : Nat) (count : Nat) : List Nat :=
  if count = 0 ∨ e ≤ s then []
  else if count = 1 then [s + (e - s) / 2]
  else (List.range count).map (fun i => s + i * (e - s) / (count - 1))

/-- `VideoProcessor._get_dense_frame_positions`. -/
def getDenseFramePositions (s e maxF : Nat) : List Nat :=
  let useful := e - s
  let interval := max 1 (useful / maxF)
  ((List.range maxF).map (fun i => s + i * interval)).filter (fun p => p < e)

/-- First-quarter segment of `_get_cooking_focused_positions`
(`max(1, int(max_frames * 0.2))` positions in the first quarter). -/
def cookingFirstSeg (s e maxF : Nat) : List Nat :=
  getEvenlySpacedPositions s (s + (e - s) / 4) (max 1 (maxF / 5))

/-- Middle-half segment of `_get_cooking_focused_positions`
(`max(1, int(max_frames * 0.6))` positions in the middle half). -/
def cookingMiddleSeg (s e maxF : Nat) : List Nat :=
  getEvenlySpacedPositions (s + (e - s) / 4) (s + 3 * (e - s) / 4)
    (max 1 (3 * maxF / 5))

/-- Last-quarter segment of `_get_cooking_focused_positions`; its budget is
`max(1, max_frames - len(positions))` with `positions` the two previous
segments. -/
def cookingLastSeg (s e maxF : Nat) : List Nat :=
  getEvenlySpacedPositions (s + 3 * (e - s) / 4) e
    (max 1 (maxF - (cookingFirstSeg s e maxF ++ cookingMiddleSeg s e maxF).length))

/-- `VideoProcessor._get_cooking_focused_positions`. -/
def getCookingFocusedPositions (s e maxF : Nat) : List Nat :=
  cookingFirstSeg s e maxF ++ cookingMiddleSeg s e maxF ++ cookingLastSeg s e maxF

/-- Beginning segment of `_get_strategic_long_video_positions`
(`max(1, int(max_frames * 0.1))` positions in the first tenth). -/
def strategicBeginSeg (s e maxF : Nat) : List Nat :=
  getEvenlySpacedPositions s (s + (e - s) / 10) (max 1 (maxF / 10))

/-- Middle segment of `_get_strategic_long_video_positions`
(`max(1, int(max_frames * 0.8))` positions in the middle 80%). -/
def strategicMiddleSeg (s e maxF : Nat) : List Nat :=
  getEvenlySpacedPositions (s + (e - s) / 10) (s + 9 * (e - s) / 10)
    (max 1 (4 * maxF / 5))

/-- End segment of `_get_strategic_long_video_positions`. -/
def strategicEndSeg (s e maxF : Nat) : List Nat :=
  getEvenlySpacedPositions (s + 9 * (e - s) / 10) e
    (max 1 (maxF - (strategicBeginSeg s e maxF ++ strategicMiddleSeg s e maxF).length))

/-- `VideoProcessor._get_strategic_long_video_positions`. -/
def getStrategicLongVideoPositions (s e maxF : Nat) : List Nat :=
  strategicBeginSeg s e maxF ++ strategicMiddleSeg s e maxF ++ strategicEndSeg s e maxF

/-- The duration-dependent position choice of
`VideoProcessor._extract_frames_intelligently` (duration in seconds; the
extraction loop then reads at most `maxF` of these positions in sorted
order). -/
def framePositions (total : Nat) (duration : ℚ) (maxF : Nat) : List Nat :=
  let s := startFrame total
  let e := endFrame total
  if duration ≤ 30 then getDenseFramePositions s e maxF
  else if duration ≤ 120 then getCookingFocusedPositions s e maxF
  else getStrategicLongVideoPositions s e maxF

/-! ## JSON values and `json.loads` — used by `_parse_recipe_json`

JSON values are modelled structurally; object entries keep insertion order and
duplicate keys are resolved last-wins, as Python dicts do.  Number lexemes are
kept verbatim.  `json.loads` is modelled as a strict RFC-8259 parser (the
CPython extensions `NaN`/`Infinity` and surrogate-pair combination are not
modelled; no input in this development uses them). -/

inductive Jval where
  | null
  | bool (b : Bool)
  | num (lit : List Char)
  | str (s : List Char)
  | arr (elems : List Jval)
  | obj (entries : List (List Char × Jval))
  deriving Repr

/-- Python-dict style insert: replace in place if the key exists, else append. -/
def objInsert (kvs : List (List Char × Jval)) (k : List Char) (v : Jval) :
    List (List Char × Jval) :=
  match kvs with
  | [] => [(k, v)]
  | (k', v') :: t => if k' = k then (k', v) :: t else (k', v') :: objInsert t k v

/-- `dict.get`. -/
def jGet (kvs : List (List Char × Jval)) (k : List Char) : Option Jval :=
  match kvs with
  | [] => none
  | (k', v) :: t => if k' = k then some v else jGet t k

/-- JSON whitespace. -/
def isJsonWs (c : Char) : Bool :=
  c = ' ' || c = '\t' || c = '\n' || c = '\x0d'

def hexVal (c : Char) : Option Nat :=
  if c.isDigit then some (c.toNat - '0'.toNat)
  else if 'a' ≤ c ∧ c ≤ 'f' then some (c.toNat - 'a'.toNat + 10)
  else if 'A' ≤ c ∧ c ≤ 'F' then some (c.toNat - 'A'.toNat + 10)
  else none

/-- Parse a JSON string body (after the opening quote); returns the decoded
content and the input after the closing quote. -/
def parseStringBody : Nat → List Char → Option (List Char × List Char)
  | 0, _ => none
  | _ + 1, [] => none
  | fuel + 1, c :: t =>
    if c = '"' then some ([], t)
    else if c = '\\' then
      match t with
      | [] => none
      | e :: t' =>
        let esc : Option Char :=
          if e = '"' then some '"'
          else if e = '\\' then some '\\'
          else if e = '/' then some '/'
          else if e = 'b' then some '\x08'
          else if e = 'f' then some '\x0c'
          else if e = 'n' then some '\n'
          else if e = 'r' then some '\x0d'
          else if e = 't' then some '\t'
          else none
        match esc with
        | some ch => (parseStringBody fuel t').map (fun p => (ch :: p.1, p.2))
        | none =>
          if e = 'u' then
            match t' with
            | a :: b :: c2 :: d :: t2 =>
              match hexVal a, hexVal b, hexVal c2, hexVal d with
              | some ha, some hb, some hc, some hd =>
                (parseStringBody fuel t2).map
                  (fun p => (Char.ofNat (((ha * 16 + hb) * 16 + hc) * 16 + hd) :: p.1, p.2))
              | _, _, _, _ => none
            | _ => none
          else none
    else if c.toNat < 32 then none
    else (parseStringBody fuel t).map (fun p => (c :: p.1, p.2))

/-- Lex a JSON number at the head of the input; returns the lexeme and the
rest.  Fractional/exponent tails without digits are not consumed (such inputs
then fail at the surrounding parser, as they do in `json.loads`). -/
def lexNumber (l : List Char) : Option (List Char × List Char) :=
  let sl : List Char × List Char :=
    match l with
    | '-' :: t => (['-'], t)
    | _ => ([], l)
  let ds := sl.2.takeWhile isDigitC
  let l2 := sl.2.dropWhile isDigitC
  if ds = [] then none
  else if ds.head? = some '0' ∧ ds.length ≠ 1 then none
  else
    let fr : List Char × List Char :=
      match l2 with
      | '.' :: t =>
        let fs := t.takeWhile isDigitC
        if fs = [] then ([], l2) else ('.' :: fs, t.dropWhile isDigitC)
      | _ => ([], l2)
    let ex : List Char × List Char :=
      match fr.2 with
      | c :: t =>
        if c = 'e' ∨ c = 'E' then
          let st : List Char × List Char :=
            match t with
            | '+' :: t2 => (['+'], t2)
            | '-' :: t2 => (['-'], t2)
            | _ => ([], t)
          let es := st.2.takeWhile isDigitC
          if es = [] then ([], fr.2)
          else (c :: (st.1 ++ es), st.2.dropWhile isDigitC)
        else ([], fr.2)
      | [] => ([], fr.2)
    some (sl.1 ++ ds ++ fr.1 ++ ex.1, ex.2)

mutual

/-- Parse one JSON value at the head of the input (no leading whitespace). -/
def parseValue : Nat → List Char → Option (Jval × List Char)
  | 0, _ => none
  | fuel + 1, l =>
    match l with
    | [] => none
    | c :: t =>
      if c = '\x7b' then
        let t' := t.dropWhile isJsonWs
        match t' with
        | '\x7d' :: r => some (.obj [], r)
        | _ => parseMembers fuel t' []
      else if c = '[' then
        let t' := t.dropWhile isJsonWs
        match t' with
        | ']' :: r => some (.arr [], r)
        | _ => parseElems fuel t' []
      else if c = '"' then
        (parseStringBody (t.length + 1) t).map (fun p => (.str p.1, p.2))
      else if startsWithL "true".data l then some (.bool true, t.drop 3)
      else if startsWithL "false".data l then some (.bool false, t.drop 4)
      else if startsWithL "null".data l then some (.null, t.drop 3)
      else (lexNumber l).map (fun p => (.num p.1, p.2))

/-- Parse object members starting at a key. -/
def parseMembers : Nat → List Char → List (List Char × Jval) →
    Option (Jval × List Char)
  | 0, _, _ => none
  | fuel + 1, l, acc =>
    match l with
    | '"' :: t =>
      match parseStringBody (t.length + 1) t with
      | some (k, r) =>
        (match r.dropWhile isJsonWs with
         | ':' :: r2 =>
           (match parseValue fuel (r2.dropWhile isJsonWs) with
            | some (v, r3) =>
              (match r3.dropWhile isJsonWs with
               | ',' :: r4 => parseMembers fuel (r4.dropWhile isJsonWs) (objInsert acc k v)
               | '\x7d' :: r4 => some (.obj (objInsert acc k v), r4)
               | _ => none)
            | none => none)
         | _ => none)
      | none => none
    | _ => none

/-- Parse array elements starting at a value. -/
def parseElems : Nat → List Char → List Jval → Option (Jval × List Char)
  | 0, _, _ => none
  | fuel + 1, l, acc =>
    match parseValue fuel l with
    | some (v, r) =>
      (match r.dropWhile isJsonWs with
       | ',' :: r2 => parseElems fuel (r2.dropWhile isJsonWs) (acc ++ [v])
       | ']' :: r2 => some (.arr (acc ++ [v]), r2)
       | _ => none)
    | none => none

end

/-- `json.loads`: a full-input parse with surrounding whitespace allowed. -/
def jsonLoads (l : List Char) : Option Jval :=
  match parseValue (l.length + 1) (l.dropWhile isJsonWs) with
  | some (v, rest) => if rest.dropWhile isJsonWs = [] then some v else none
  | none => none

/-! ## Recipe-JSON recovery — `OpenAIService._parse_recipe_json`

The three-backtick fence character is written `'\x60'`.  The `re.search`
calls are modelled as leftmost-match scanners.  The lazy groups `{.*?}` stop
at the first `}` whose continuation (`\s*`, then the closing fence for the
fenced patterns) matches, which is exactly Python's lazy semantics.  For the
pattern `({.*?"ingredients".*?"steps".*?})` the stages are literal searches in
the remaining suffix; taking the first occurrence at each stage is complete,
because a stage that fails in a suffix also fails in every later suffix. -/

/-- Consume a literal; `none` if the input does not start with it. -/
def dropLit : List Char → List Char → Option (List Char)
  | [], l => some l
  | _ :: _, [] => none
  | a :: as, b :: bs => if a = b then dropLit as bs else none

/-- Remainder after the first occurrence of a literal. -/
def findLit (lit : List Char) : List Char → Option (List Char)
  | [] =>
    (match dropLit lit [] with
     | some r => some r
     | none => none)
  | c :: t =>
    (match dropLit lit (c :: t) with
     | some r => some r
     | none => findLit lit t)

/-- The lazy group `{.*?}` followed by `\s*` and `lit`, scanned after the
opening brace; returns the captured group including both braces. -/
def lazyBodyScan (lit : List Char) : List Char → List Char → Option (List Char)
  | _, [] => none
  | acc, c :: t =>
    if c = '\x7d' ∧ (dropLit lit (t.dropWhile isPyWs)).isSome then
      some ('\x7b' :: (acc.reverse ++ ['\x7d']))
    else lazyBodyScan lit (c :: acc) t

def fenceJson : List Char := ['\x60', '\x60', '\x60', 'j', 's', 'o', 'n']

def fence3 : List Char := ['\x60', '\x60', '\x60']

/-- Match attempt of ```` ```json\s*({.*?})\s*``` ```` at the head. -/
def matchAtP1 (l : List Char) : Option (List Char) :=
  match dropLit fenceJson l with
  | none => none
  | some r =>
    match r.dropWhile isPyWs with
    | '\x7b' :: r2 => lazyBodyScan fence3 [] r2
    | _ => none

/-- Match attempt of ```` ```\s*({.*?})\s*``` ```` at the head. -/
def matchAtP2 (l : List Char) : Option (List Char) :=
  match dropLit fence3 l with
  | none => none
  | some r =>
    match r.dropWhile isPyWs with
    | '\x7b' :: r2 => lazyBodyScan fence3 [] r2
    | _ => none

/-- Match attempt of `({.*?"ingredients".*?"steps".*?})` at the head. -/
def matchAtP3 (l : List Char) : Option (List Char) :=
  match l with
  | '\x7b' :: t =>
    (match findLit ('"' :: ("ingredients".data ++ ['"'])) t with
     | some r2 =>
       (match findLit ('"' :: ("steps".data ++ ['"'])) r2 with
        | some r3 =>
          (match findLit ['\x7d'] r3 with
           | some r4 => some (l.take (l.length - r4.length))
           | none => none)
        | none => none)
     | none => none)
  | _ => none

/-- Match attempt of `({.*?})` at the head. -/
def matchAtP4 (l : List Char) : Option (List Char) :=
  match l with
  | '\x7b' :: t =>
    (match findLit ['\x7d'] t with
     | some r => some (l.take (l.length - r.length))
     | none => none)
  | _ => none

/-- Leftmost `re.search` for a head-matcher. -/
def searchFor (m : List Char → Option (List Char)) : List Char → Option (List Char)
  | [] => m []
  | c :: t =>
    match m (c :: t) with
    | some g => some g
    | none => searchFor m t

/-- The `json_patterns` list of `_parse_recipe_json`, as capture extractors. -/
def jsonPatterns : List (List Char → Option (List Char)) :=
  [searchFor matchAtP1, searchFor matchAtP2, searchFor matchAtP3, searchFor matchAtP4]

/-- `OpenAIService._create_fallback_recipe`. -/
def fallbackRecipe (msg : List Char) : Jval :=
  .obj [("title".data, .str "Untitled Recipe".data),
        ("ingredients".data, .arr []),
        ("steps".data, .arr [.str msg])]

/-- Try each pattern in order; a captured group whose `json.loads` fails moves
on to the next pattern. -/
def firstPatternParse : List (List Char → Option (List Char)) → List Char →
    Option Jval
  | [], _ => none
  | p :: ps, content =>
    match p content with
    | some g =>
      (match jsonLoads g with
       | some v => some v
       | none => firstPatternParse ps content)
    | none => firstPatternParse ps content

/-- `OpenAIService._parse_recipe_json`.  The direct branch runs only when the
content both starts with `{` and ends with `}`; a decode error there is caught
by the surrounding `except json.JSONDecodeError` and yields the fallback. -/
def parseRecipeJson (content : List Char) : Jval :=
  if content.head? = some '\x7b' ∧ content.getLast? = some '\x7d' then
    match jsonLoads content with
    | some v => v
    | none => fallbackRecipe "JSON parsing fehlgeschlagen".data
  else
    match firstPatternParse jsonPatterns content with
    | some v => v
    | none => fallbackRecipe "Konnte JSON nicht parsen".data

/-- `isinstance(x, str)` on an optional JSON value. -/
def isJStr : Option Jval → Bool
  | some (.str _) => true
  | _ => false

/-- `isinstance(x, list)` on an optional JSON value. -/
def isJList : Option Jval → Bool
  | some (.arr _) => true
  | _ => false

/-- `OpenAIService._validate_recipe_structure` (its argument is always a JSON
object in the source; other values are returned unchanged here). -/
def validateRecipeStructure : Jval → Jval
  | .obj kvs =>
    let kvs1 :=
      if isJStr (jGet kvs "title".data) then kvs
      else objInsert kvs "title".data (.str "Untitled Recipe".data)
    let kvs2 :=
      if isJList (jGet kvs1 "ingredients".data) then kvs1
      else objInsert kvs1 "ingredients".data (.arr [])
    let kvs3 :=
      if isJList (jGet kvs2 "steps".data) then kvs2
      else objInsert kvs2 "steps".data (.arr [])
    .obj kvs3
  | v => v

/-! ## Job pipeline failure handling — `src/src/tasks.py`, `src/main.py`,
`src/src/tiktok_scraper.py`

`scrape_tiktok_async` publishes four progress events, runs
`TikTokScraper.scrape_and_process`, publishes the fifth and the terminal
event, and on `TikTokScrapingError` (or any exception) marks the Celery state
`FAILURE`, publishes an error event and raises `Ignore()`.  The task never
calls `self.retry` and declares no `autoretry_for`, so Celery executes it
exactly once per submitted job. -/

inductive CeleryState where
  | PENDING
  | PROGRESS
  | SUCCESS
  | FAILURE
  deriving DecidableEq, Repr

inductive WsUpdate where
  | progress (step total : Nat) (status : List Char)
  | completion (recipeId : List Char)
  | error (errorCode : List Char) (technicalDetails : List Char)
  deriving DecidableEq, Repr

/-- One dataset item of the scraping provider, restricted to the fields the
error path reads. -/
structure DatasetItem where
  errorField : Option (List Char)
  deriving DecidableEq, Repr

/-- The error classification of `TikTokScraper.scrape_and_process` on a
dataset item carrying an `error` field (`None` when no error is raised). -/
def scrapeItemError (item : DatasetItem) : Option (List Char) :=
  match item.errorField with
  | some msg =>
    if containsSub "not found or is private".data (lowerL msg) then
      some ("Video not accessible: ".data ++ msg ++
        ". The video may be private, deleted, or the URL is invalid.".data)
    else
      some ("Scraping failed: ".data ++ msg)
  | none => none

/-- The catch-all in `scrape_and_process` re-raises every failure as
`TikTokScrapingError(f"Pipeline failed: {str(e)}")`. -/
def pipelineErrorMessage (item : DatasetItem) : Option (List Char) :=
  (scrapeItemError item).map (fun m => "Pipeline failed: ".data ++ m)

/-- The outcome of the body of `scrape_tiktok_async`: the pipeline either
returns a result whose Supabase upload succeeds or fails, or raises
`TikTokScrapingError`, or raises some other exception. -/
inductive PipelineOutcome where
  | ok (upload : Except (List Char) (List Char))
  | scrapingError (msg : List Char)
  | unexpectedError (msg : List Char)
  deriving Repr

/-- The result of one Celery execution of `scrape_tiktok_async`. -/
structure TaskRun where
  finalState : CeleryState
  events : List WsUpdate
  /-- whether the task asked Celery to retry it (`self.retry`); the source
  never does — every failure path raises `Ignore()` instead. -/
  retryRequested : Bool
  /-- executions of the task for this job: one, since no retry is configured. -/
  attempts : Nat
  deriving DecidableEq, Repr

/-- The four progress events published before the pipeline call. -/
def earlyProgressEvents : List WsUpdate :=
  [.progress 1 5 "Initializing TikTok scraper...".data,
   .progress 2 5 "Starting Apify scraper...".data,
   .progress 3 5 "Processing video content...".data,
   .progress 4 5 "Processing with AI...".data]

/-- `scrape_tiktok_async` as a function of the pipeline outcome. -/
def runScrapeTask : PipelineOutcome → TaskRun
  | .ok (.ok recipeId) =>
    { finalState := .SUCCESS
      events := earlyProgressEvents ++
        [.progress 5 5 "Finalizing results...".data, .completion recipeId]
      retryRequested := false
      attempts := 1 }
  | .ok (.error uploadErr) =>
    { finalState := .SUCCESS
      events := earlyProgressEvents ++
        [.progress 5 5 "Finalizing results...".data,
         .error "UPLOAD_FAILED".data uploadErr]
      retryRequested := false
      attempts := 1 }
  | .scrapingError msg =>
    { finalState := .FAILURE
      events := earlyProgressEvents ++ [.error "SCRAPING_ERROR".data msg]
      retryRequested := false
      attempts := 1 }
  | .unexpectedError msg =>
    { finalState := .FAILURE
      events := earlyProgressEvents ++ [.error "PROCESSING_ERROR".data msg]
      retryRequested := false
      attempts := 1 }

/-- The submission endpoint `scrape_tiktok_videos_async` (`src/main.py`):
an empty or whitespace-only URL is rejected with HTTP 422 before any task is
enqueued; otherwise the task is enqueued on the stripped URL. -/
inductive SubmitResult where
  | rejected (statusCode : Nat) (detail : List Char)
  | enqueued (url : List Char)
  deriving DecidableEq, Repr

def submitScrapeRequest (url : List Char) : SubmitResult :=
  if url = [] ∨ stripL url = [] then
    .rejected 422 "URL is required and cannot be empty".data
  else
    .enqueued (stripL url)

/-! ## Progress Broadcaster — `src/src/websocket_manager.py`

The per-process map `connections : task_id → set of websockets` is modelled
as an association list of task ids to lists of connection identifiers. -/

abbrev ConnMap := List (String × List Nat)

def lookupConns (m : ConnMap) (t : String) : Option (List Nat) :=
  match m with
  | [] => none
  | (t', s) :: r => if t' = t then some s else lookupConns r t

/-- `WebSocketTaskManager._verify_task_ownership`.  The `userId` argument is
received but never read: the check returns `True` for `PENDING` tasks and
`state is not None` (always true — a Celery `AsyncResult` state is a string,
`PENDING` even for unknown ids) otherwise. -/
def verifyTaskOwnership (state : CeleryState) (_user : String) : Bool :=
  match state with
  | .PENDING => true
  | _ => true

/-- Adding a websocket under its task id (`connections[task_id].add(ws)`,
creating the entry if absent). -/
def addConn (m : ConnMap) (t : String) (w : Nat) : ConnMap :=
  match m with
  | [] => [(t, [w])]
  | (t', s) :: r =>
    if t' = t then (t', if w ∈ s then s else s ++ [w]) :: r
    else (t', s) :: addConn r t w

structure ConnectResult where
  map : ConnMap
  admitted : Bool
  deriving DecidableEq, Repr

/-- `WebSocketTaskManager.connect`: verify, then admit and track. -/
def wsConnect (m : ConnMap) (state : CeleryState) (t : String) (u : String)
    (w : Nat) : ConnectResult :=
  if verifyTaskOwnership state u then
    { map := addConn m t w, admitted := true }
  else
    { map := m, admitted := false }

/-- `WebSocketTaskManager.disconnect`: discard the websocket from the task's
set and delete the key when the set becomes empty. -/
def wsDisconnect (m : ConnMap) (t : String) (w : Nat) : ConnMap :=
  match m with
  | [] => []
  | (t', s) :: r =>
    if t' = t then
      (if s.filter (fun x => x ≠ w) = [] then r
       else (t', s.filter (fun x => x ≠ w)) :: r)
    else (t', s) :: wsDisconnect r t w

/-- `WebSocketTaskManager.broadcast_to_task`: prune exactly the connections
whose send failed (`fails`), and delete the key when none remain. -/
def wsBroadcast (m : ConnMap) (t : String) (fails : Nat → Bool) : ConnMap :=
  match m with
  | [] => []
  | (t', s) :: r =>
    if t' = t then
      (if s.filter (fun x => ¬ fails x) = [] then r
       else (t', s.filter (fun x => ¬ fails x)) :: r)
    else (t', s) :: wsBroadcast r t fails

/-- The subscriber-map invariant: every tracked task id has at least one
connection, and (as in a Python dict) task ids are not duplicated. -/
def connMapInv (m : ConnMap) : Prop :=
  (∀ p ∈ m, p.2 ≠ ([] : List Nat)) ∧ (m.map Prod.fst).Nodup

/-! ## Concrete evaluation inputs -/

/-- A 250-character caption with 8 matched domain keywords, 4 matched action
keywords, 3 matched quantity patterns and 36 words over 6 sentence parts
(average 6 words per sentence). -/
def c2Text : List Char :=
  ("This recipe demonstrates cooking alongside wonderful ingredients " ++
   "thoroughly. Initially heat the pans plus add salt. Afterwards fry that " ++
   "pot casserole featuring pepper. Combine 200 g spaghetti besides 100 " ++
   "ml. Season that oven surface containing 2 cup.").data

/-- A 52-character text whose stripped form has 42 characters: the quality
score of the raw text is 61, yet the strategy guard fires on the stripped
length. -/
def c1Text : List Char :=
  "salz ei öl mix pot pan add fry 5g 5ml 1cup          ".data

/-- The canonical direct-parse recipe response. -/
def directRecipeText : List Char :=
  "\x7b\"title\":\"X\",\"ingredients\":[\"a\"],\"steps\":[\"b\"]\x7d".data

/-- The parsed value of `directRecipeText`. -/
def directRecipeVal : Jval :=
  .obj [("title".data, .str "X".data),
        ("ingredients".data, .arr [.str "a".data]),
        ("steps".data, .arr [.str "b".data])]

end RecipeServer

namespace RecipeServer

/-! # Theorems -/

set_option maxRecDepth 100000

/-- **C1** (amended).  The strategy is the fixed mapping on the quality score
(`>80` → `text_only`, `(50, 80]` → `reduced_frames`, `≤50` → the full
strategy, called `full_frames` in the spec), except that the short-text guard
fires on the *stripped* length: an absent text or one whose whitespace-stripped
form has fewer than 50 characters forces the full strategy without scoring. -/
theorem C1_strategy_mapping_amended (s : List Char) :
    (s = [] ∨ (stripL s).length < 50 →
      determineProcessingStrategy s = Strategy.full_processing) ∧
    (¬ (s = [] ∨ (stripL s).length < 50) →
      ((80 < analyzeSubtitleQuality s →
         determineProcessingStrategy s = Strategy.text_only) ∧
       (50 < analyzeSubtitleQuality s → analyzeSubtitleQuality s ≤ 80 →
         determineProcessingStrategy s = Strategy.reduced_frames) ∧
       (analyzeSubtitleQuality s ≤ 50 →
         determineProcessingStrategy s = Strategy.full_processing))) := by
  unfold determineProcessingStrategy
  refine ⟨fun h => by rw [if_pos h], fun h => ?_⟩
  rw [if_neg h]
  refine ⟨fun h1 => ?_, fun h1 h2 => ?_, fun h1 => ?_⟩
  · show (if analyzeSubtitleQuality s > 80 then _ else _) = _
    rw [if_pos h1]
  · show (if analyzeSubtitleQuality s > 80 then _ else _) = _
    rw [if_neg (by omega), if_pos (by omega)]
  · show (if analyzeSubtitleQuality s > 80 then _ else _) = _
    rw [if_neg (by omega), if_neg (by omega)]

/-- **C1** (witness). -/
theorem C1_strategy_mapping_witness :
    determineProcessingStrategy c2Text = Strategy.text_only :=
  ((C1_strategy_mapping_amended c2Text).2 (by decide)).1 (by decide)

/-- **C1** (counterexample).  `c1Text` is present, has 52 ≥ 50 characters, and
scores 61 ∈ (50, 80], so the claimed mapping demands `reduced_frames`; the
source strips the text first (42 < 50 characters) and forces the full
strategy. -/
theorem C1_strategy_mapping_counterexample :
    c1Text ≠ [] ∧ ¬ c1Text.length < 50 ∧
    50 < analyzeSubtitleQuality c1Text ∧ analyzeSubtitleQuality c1Text ≤ 80 ∧
    determineProcessingStrategy c1Text ≠ Strategy.reduced_frames ∧
    determineProcessingStrategy c1Text = Strategy.full_processing := by
  refine ⟨by decide, by decide, by decide, by decide, by decide, by decide⟩

/-- **C2**.  The score is the capped sum of the length bonus, 5 points per
domain keyword (≤30), 3 per action keyword (≤20), 4 per quantity pattern
(≤25) and the coherence bonus, capped at 100; and the spec scenario holds: a
250-character caption with 8 domain keywords, 4 action keywords, 3 quantity
patterns and average 6 words per sentence scores 89 and maps to
`text_only`. -/
theorem C2_score_additive_and_scenario :
    (∀ s : List Char, s ≠ [] →
      analyzeSubtitleQuality s =
        min (lengthBonus s.length +
          min (keywordCount recipeKeywords (lowerL s) * 5) 30 +
          min (keywordCount actionKeywords (lowerL s) * 3) 20 +
          min (quantityCount (lowerL s) * 4) 25 +
          coherenceBonus s) 100) ∧
    (c2Text.length = 250 ∧
     keywordCount recipeKeywords (lowerL c2Text) = 8 ∧
     keywordCount actionKeywords (lowerL c2Text) = 4 ∧
     quantityCount (lowerL c2Text) = 3 ∧
     sentenceWordSum c2Text = 36 ∧ (sentenceParts c2Text).length = 6 ∧
     analyzeSubtitleQuality c2Text = 89 ∧
     determineProcessingStrategy c2Text = Strategy.text_only) := by
  constructor
  · intro s h
    unfold analyzeSubtitleQuality
    rw [if_neg h]
  · exact ⟨by decide, by decide, by decide, by decide, by decide, by decide,
      by decide, by decide⟩

/-! ### Frame Sampler lemmas -/

theorem getEvenly_length_le (s e c : Nat) :
    (getEvenlySpacedPositions s e c).length ≤ c := by
  unfold getEvenlySpacedPositions
  split_ifs with h1 h2
  · simp
  · subst h2; simp
  · simp

theorem getEvenly_length_eq (s e c : Nat) (hc : c ≠ 0) (hse : s < e) :
    (getEvenlySpacedPositions s e c).length = c := by
  unfold getEvenlySpacedPositions
  rw [if_neg (by omega)]
  split_ifs with h2
  · subst h2; simp
  · simp

theorem getEvenly_mem (s e c p : Nat) (hp : p ∈ getEvenlySpacedPositions s e c) :
    s ≤ p ∧ p ≤ e := by
  unfold getEvenlySpacedPositions at hp
  split_ifs at hp with h1 h2
  · simp at hp
  · simp at hp
    subst hp
    have h2 := Nat.div_le_self (e - s) 2
    omega
  · simp at hp
    obtain ⟨i, hi, rfl⟩ := hp
    have hse : s < e := by omega
    refine ⟨Nat.le_add_right _ _, ?_⟩
    have h3 : i * (e - s) ≤ (c - 1) * (e - s) :=
      Nat.mul_le_mul_right _ (by omega)
    have h4 : i * (e - s) / (c - 1) ≤ (c - 1) * (e - s) / (c - 1) :=
      Nat.div_le_div_right h3
    have h5 : (c - 1) * (e - s) / (c - 1) = e - s :=
      Nat.mul_div_cancel_left _ (by omega)
    omega

theorem dense_length_le (s e maxF : Nat) :
    (getDenseFramePositions s e maxF).length ≤ maxF := by
  unfold getDenseFramePositions
  calc (((List.range maxF).map fun i => s + i * max 1 ((e - s) / maxF)).filter
          (fun p => p < e)).length
      ≤ ((List.range maxF).map fun i => s + i * max 1 ((e - s) / maxF)).length :=
        List.length_filter_le _ _
    _ = maxF := by simp

theorem dense_mem (s e maxF p : Nat) (hp : p ∈ getDenseFramePositions s e maxF) :
    s ≤ p ∧ p < e := by
  unfold getDenseFramePositions at hp
  simp only [List.mem_filter, List.mem_map, List.mem_range, decide_eq_true_eq] at hp
  obtain ⟨⟨i, hi, rfl⟩, hlt⟩ := hp
  exact ⟨Nat.le_add_right _ _, hlt⟩

theorem cooking_mem (s e maxF p : Nat) (hse : s ≤ e)
    (hp : p ∈ getCookingFocusedPositions s e maxF) : s ≤ p ∧ p ≤ e := by
  unfold getCookingFocusedPositions at hp
  rw [List.append_assoc, List.mem_append, List.mem_append] at hp
  rcases hp with h | h | h
  · unfold cookingFirstSeg at h
    have hb := getEvenly_mem _ _ _ _ h
    omega
  · unfold cookingMiddleSeg at h
    have hb := getEvenly_mem _ _ _ _ h
    omega
  · unfold cookingLastSeg at h
    have hb := getEvenly_mem _ _ _ _ h
    omega

theorem strategic_mem (s e maxF p : Nat) (hse : s ≤ e)
    (hp : p ∈ getStrategicLongVideoPositions s e maxF) : s ≤ p ∧ p ≤ e := by
  unfold getStrategicLongVideoPositions at hp
  rw [List.append_assoc, List.mem_append, List.mem_append] at hp
  rcases hp with h | h | h
  · unfold strategicBeginSeg at h
    have hb := getEvenly_mem _ _ _ _ h
    omega
  · unfold strategicMiddleSeg at h
    have hb := getEvenly_mem _ _ _ _ h
    omega
  · unfold strategicEndSeg at h
    have hb := getEvenly_mem _ _ _ _ h
    omega

theorem cooking_length_le (s e : Nat) :
    (getCookingFocusedPositions s e 20).length ≤ 20 := by
  have h1 : (cookingFirstSeg s e 20).length ≤ 4 := by
    have h := getEvenly_length_le s (s + (e - s) / 4) (max 1 (20 / 5))
    unfold cookingFirstSeg
    omega
  have h2 : (cookingMiddleSeg s e 20).length ≤ 12 := by
    have h := getEvenly_length_le (s + (e - s) / 4) (s + 3 * (e - s) / 4)
      (max 1 (3 * 20 / 5))
    unfold cookingMiddleSeg
    omega
  have h3 := getEvenly_length_le (s + 3 * (e - s) / 4) e
    (max 1 (20 - (cookingFirstSeg s e 20 ++ cookingMiddleSeg s e 20).length))
  unfold getCookingFocusedPositions cookingLastSeg
  rw [List.length_append, List.length_append]
  rw [List.length_append] at h3
  have hmax : max 1 (20 - ((cookingFirstSeg s e 20).length +
      (cookingMiddleSeg s e 20).length)) =
      20 - ((cookingFirstSeg s e 20).length + (cookingMiddleSeg s e 20).length) :=
    max_eq_right (by omega)
  omega

theorem strategic_length_le (s e : Nat) :
    (getStrategicLongVideoPositions s e 20).length ≤ 20 := by
  have h1 : (strategicBeginSeg s e 20).length ≤ 2 := by
    have h := getEvenly_length_le s (s + (e - s) / 10) (max 1 (20 / 10))
    unfold strategicBeginSeg
    omega
  have h2 : (strategicMiddleSeg s e 20).length ≤ 16 := by
    have h := getEvenly_length_le (s + (e - s) / 10) (s + 9 * (e - s) / 10)
      (max 1 (4 * 20 / 5))
    unfold strategicMiddleSeg
    omega
  have h3 := getEvenly_length_le (s + 9 * (e - s) / 10) e
    (max 1 (20 - (strategicBeginSeg s e 20 ++ strategicMiddleSeg s e 20).length))
  unfold getStrategicLongVideoPositions strategicEndSeg
  rw [List.length_append, List.length_append]
  rw [List.length_append] at h3
  have hmax : max 1 (20 - ((strategicBeginSeg s e 20).length +
      (strategicMiddleSeg s e 20).length)) =
      20 - ((strategicBeginSeg s e 20).length + (strategicMiddleSeg s e 20).length) :=
    max_eq_right (by omega)
  omega

/-- **C3** (amended).  For every frame count and duration, the sampler
produces at most `maxFrames = 20` positions and every position `p` satisfies
`⌊total*0.05⌋ ≤ p ≤ ⌊total*0.95⌋`: the usable range is inclusive of its upper
boundary (the evenly-spaced helper emits the segment endpoint), not strictly
below it as claimed. -/
theorem C3_sampler_bounds_amended (total : Nat) (duration : ℚ) :
    (framePositions total duration 20).length ≤ 20 ∧
    ∀ p ∈ framePositions total duration 20,
      startFrame total ≤ p ∧ p ≤ endFrame total := by
  have hse : startFrame total ≤ endFrame total := by
    unfold startFrame endFrame
    omega
  unfold framePositions
  split_ifs with h1 h2
  · refine ⟨dense_length_le _ _ _, fun p hp => ?_⟩
    have h := dense_mem _ _ _ _ hp
    omega
  · exact ⟨cooking_length_le _ _, fun p hp => cooking_mem _ _ _ _ hse hp⟩
  · exact ⟨strategic_length_le _ _, fun p hp => strategic_mem _ _ _ _ hse hp⟩

/-- **C3** (witness). -/
theorem C3_sampler_bounds_witness :
    startFrame 1000 ≤ 950 ∧ 950 ≤ endFrame 1000 :=
  (C3_sampler_bounds_amended 1000 60).2 950 (by decide)

/-- **C3** (counterexample).  At 1000 frames and 60 s duration the
cooking-focused sampler emits position 950 = `⌊1000*0.95⌋` itself, so the
claimed strict upper bound `p < ⌊total*0.95⌋` fails. -/
theorem C3_sampler_bounds_counterexample :
    (950 : Nat) ∈ framePositions 1000 60 20 ∧ endFrame 1000 = 950 ∧
    ¬ ((950 : Nat) < endFrame 1000) := by
  refine ⟨by decide, by decide, by decide⟩

/-- **C8** (amended).  For 30 s < duration ≤ 120 s the sampler is the
cooking-focused allocation: 4 evenly spaced positions over the first quarter,
12 over the middle half and 4 over the last quarter (20 in total) — provided
the usable range holds at least 4 frames; degenerate ranges collapse segments
and move the remaining budget to the last quarter. -/
theorem C8_cooking_allocation_amended (total : Nat) (duration : ℚ)
    (h1 : 30 < duration) (h2 : duration ≤ 120)
    (h4 : 4 ≤ endFrame total - startFrame total) :
    framePositions total duration 20 =
      cookingFirstSeg (startFrame total) (endFrame total) 20 ++
      cookingMiddleSeg (startFrame total) (endFrame total) 20 ++
      cookingLastSeg (startFrame total) (endFrame total) 20 ∧
    (cookingFirstSeg (startFrame total) (endFrame total) 20).length = 4 ∧
    (cookingMiddleSeg (startFrame total) (endFrame total) 20).length = 12 ∧
    (cookingLastSeg (startFrame total) (endFrame total) 20).length = 4 ∧
    (framePositions total duration 20).length = 20 := by
  have heq : framePositions total duration 20 =
      getCookingFocusedPositions (startFrame total) (endFrame total) 20 := by
    unfold framePositions
    rw [if_neg (not_le.mpr h1), if_pos h2]
  have l1 : (cookingFirstSeg (startFrame total) (endFrame total) 20).length = 4 := by
    unfold cookingFirstSeg
    rw [getEvenly_length_eq _ _ _ (by decide) (by omega)]
    decide
  have l2 : (cookingMiddleSeg (startFrame total) (endFrame total) 20).length = 12 := by
    unfold cookingMiddleSeg
    rw [getEvenly_length_eq _ _ _ (by decide) (by omega)]
    decide
  have l3 : (cookingLastSeg (startFrame total) (endFrame total) 20).length = 4 := by
    unfold cookingLastSeg
    rw [List.length_append, l1, l2]
    rw [getEvenly_length_eq _ _ _ (by decide) (by omega)]
    decide
  refine ⟨heq, l1, l2, l3, ?_⟩
  rw [heq]
  unfold getCookingFocusedPositions
  rw [List.length_append, List.length_append, l1, l2, l3]

/-- **C8** (witness). -/
theorem C8_cooking_allocation_witness :
    framePositions 1000 60 20 =
      cookingFirstSeg (startFrame 1000) (endFrame 1000) 20 ++
      cookingMiddleSeg (startFrame 1000) (endFrame 1000) 20 ++
      cookingLastSeg (startFrame 1000) (endFrame 1000) 20 ∧
    (cookingFirstSeg (startFrame 1000) (endFrame 1000) 20).length = 4 ∧
    (cookingMiddleSeg (startFrame 1000) (endFrame 1000) 20).length = 12 ∧
    (cookingLastSeg (startFrame 1000) (endFrame 1000) 20).length = 4 ∧
    (framePositions 1000 60 20).length = 20 :=
  C8_cooking_allocation_amended 1000 60 (by norm_num) (by norm_num) (by decide)

/-- **C8** (counterexample).  At 3 total frames and 60 s duration the usable
range is degenerate: the first quarter receives 0 positions (not 4) and the
last quarter receives 8, so the claimed 4/12/4 split fails. -/
theorem C8_cooking_allocation_counterexample :
    (30 : ℚ) < 60 ∧ (60 : ℚ) ≤ 120 ∧
    framePositions 3 60 20 =
      cookingFirstSeg (startFrame 3) (endFrame 3) 20 ++
      cookingMiddleSeg (startFrame 3) (endFrame 3) 20 ++
      cookingLastSeg (startFrame 3) (endFrame 3) 20 ∧
    (cookingFirstSeg (startFrame 3) (endFrame 3) 20).length = 0 ∧
    (cookingMiddleSeg (startFrame 3) (endFrame 3) 20).length = 12 ∧
    (cookingLastSeg (startFrame 3) (endFrame 3) 20).length = 8 := by
  refine ⟨by norm_num, by norm_num, by decide, by decide, by decide, by decide⟩

/-- **C2** (witness). -/
theorem C2_score_additive_witness :
    analyzeSubtitleQuality c2Text =
      min (lengthBonus c2Text.length +
        min (keywordCount recipeKeywords (lowerL c2Text) * 5) 30 +
        min (keywordCount actionKeywords (lowerL c2Text) * 3) 20 +
        min (quantityCount (lowerL c2Text) * 4) 25 +
        coherenceBonus c2Text) 100 :=
  C2_score_additive_and_scenario.1 c2Text (by decide)

/-! ### Job pipeline failure handling -/

/-- **C4** (amended).  The pipeline performs no retry at all: a scraping
(acquisition) failure transitions the job to terminal `FAILURE` on its single
attempt, with no Celery retry requested; a validation failure (empty or
whitespace-only video reference) is rejected with HTTP 422 before any job is
enqueued. -/
theorem C4_no_retry_amended (msg : List Char) :
    (runScrapeTask (.scrapingError msg)).finalState = CeleryState.FAILURE ∧
    (runScrapeTask (.scrapingError msg)).retryRequested = false ∧
    (runScrapeTask (.scrapingError msg)).attempts = 1 ∧
    (∀ url : List Char, stripL url = [] →
      submitScrapeRequest url =
        SubmitResult.rejected 422 "URL is required and cannot be empty".data) := by
  refine ⟨rfl, rfl, rfl, fun url h => ?_⟩
  unfold submitScrapeRequest
  rw [if_pos (Or.inr h)]

/-- **C4** (witness). -/
theorem C4_no_retry_witness :
    (runScrapeTask (.scrapingError "Pipeline failed: Scraping failed: provider timeout".data)).finalState
        = CeleryState.FAILURE ∧
    (runScrapeTask (.scrapingError "Pipeline failed: Scraping failed: provider timeout".data)).retryRequested
        = false ∧
    submitScrapeRequest "   ".data =
      SubmitResult.rejected 422 "URL is required and cannot be empty".data :=
  ⟨(C4_no_retry_amended "Pipeline failed: Scraping failed: provider timeout".data).1,
   (C4_no_retry_amended "Pipeline failed: Scraping failed: provider timeout".data).2.1,
   (C4_no_retry_amended "Pipeline failed: Scraping failed: provider timeout".data).2.2.2
     "   ".data (by decide)⟩

/-- **C4** (counterexample).  A transient acquisition failure is *not*
retried: the very first scraping failure ends in terminal `FAILURE` with a
single attempt and no retry request, refuting the claimed bounded
exponential-backoff retry of up to 3 attempts. -/
theorem C4_no_retry_counterexample :
    (runScrapeTask (.scrapingError "Pipeline failed: Scraping failed: provider timeout".data)).finalState
        = CeleryState.FAILURE ∧
    (runScrapeTask (.scrapingError "Pipeline failed: Scraping failed: provider timeout".data)).retryRequested
        = false ∧
    ¬ 1 < (runScrapeTask (.scrapingError "Pipeline failed: Scraping failed: provider timeout".data)).attempts :=
  ⟨rfl, rfl, by decide⟩

/-- **C5**.  A dataset item whose error field contains
`"not found or is private"` makes the scraper raise the wrapped
`TikTokScrapingError`; the task then reaches terminal `FAILURE` on its single
attempt without any retry, and the published terminal error event carries the
stable code string `"SCRAPING_ERROR"` (the code named `ACQUISITION_ERROR` in
the spec's taxonomy) together with the technical-detail string. -/
theorem C5_not_found_terminal_failure (errMsg : List Char)
    (h : containsSub "not found or is private".data (lowerL errMsg) = true) :
    pipelineErrorMessage ⟨some errMsg⟩ =
      some ("Pipeline failed: ".data ++
        ("Video not accessible: ".data ++ errMsg ++
         ". The video may be private, deleted, or the URL is invalid.".data)) ∧
    ∀ detail : List Char,
      (runScrapeTask (.scrapingError detail)).finalState = CeleryState.FAILURE ∧
      (runScrapeTask (.scrapingError detail)).retryRequested = false ∧
      (runScrapeTask (.scrapingError detail)).attempts = 1 ∧
      WsUpdate.error "SCRAPING_ERROR".data detail ∈
        (runScrapeTask (.scrapingError detail)).events := by
  constructor
  · simp [pipelineErrorMessage, scrapeItemError, h]
  · intro detail
    refine ⟨rfl, rfl, rfl, ?_⟩
    simp [runScrapeTask]

/-- **C5** (witness). -/
theorem C5_not_found_terminal_failure_witness :
    pipelineErrorMessage ⟨some "Video not found or is private".data⟩ =
      some ("Pipeline failed: ".data ++
        ("Video not accessible: ".data ++ "Video not found or is private".data ++
         ". The video may be private, deleted, or the URL is invalid.".data)) ∧
    (runScrapeTask (.scrapingError "d".data)).finalState = CeleryState.FAILURE ∧
    WsUpdate.error "SCRAPING_ERROR".data "d".data ∈
      (runScrapeTask (.scrapingError "d".data)).events :=
  ⟨(C5_not_found_terminal_failure "Video not found or is private".data (by decide)).1,
   ((C5_not_found_terminal_failure "Video not found or is private".data (by decide)).2 "d".data).1,
   ((C5_not_found_terminal_failure "Video not found or is private".data (by decide)).2 "d".data).2.2.2⟩

/-! ### Progress Broadcaster -/

theorem wsConnect_map_eq (m : ConnMap) (state : CeleryState) (t u : String)
    (w : Nat) : (wsConnect m state t u w).map = addConn m t w := by
  cases state <;> rfl

/-- Every entry of `addConn` is an old entry, the fresh `(t, [w])`, or the
updated entry of `t`, never empty when the old entries are nonempty. -/
theorem addConn_entries_ne_nil (m : ConnMap) (t : String) (w : Nat)
    (hm : ∀ p ∈ m, p.2 ≠ ([] : List Nat)) :
    ∀ p ∈ addConn m t w, p.2 ≠ ([] : List Nat) := by
  induction m with
  | nil =>
    intro p hp
    simp only [addConn, List.mem_singleton] at hp
    subst hp
    simp
  | cons q r ih =>
    obtain ⟨k, sset⟩ := q
    have hks : sset ≠ ([] : List Nat) := hm (k, sset) (by simp)
    have hr : ∀ p ∈ r, p.2 ≠ ([] : List Nat) :=
      fun q hq => hm q (List.mem_cons_of_mem _ hq)
    intro p hp
    unfold addConn at hp
    split_ifs at hp with hk hw
    · rcases List.mem_cons.mp hp with h | h
      · subst h
        exact hks
      · exact hr p h
    · rcases List.mem_cons.mp hp with h | h
      · subst h
        simp
      · exact hr p h
    · rcases List.mem_cons.mp hp with h | h
      · subst h
        exact hks
      · exact ih hr p h

/-- Keys after `addConn`: unchanged, or the new key appended when absent. -/
theorem addConn_keys (m : ConnMap) (t : String) (w : Nat) :
    (addConn m t w).map Prod.fst = m.map Prod.fst ∨
    ((addConn m t w).map Prod.fst = m.map Prod.fst ++ [t] ∧
     t ∉ m.map Prod.fst) := by
  induction m with
  | nil => exact Or.inr (by simp [addConn])
  | cons q r ih =>
    obtain ⟨k, sset⟩ := q
    unfold addConn
    by_cases hk : k = t
    · rw [if_pos hk]
      exact Or.inl (by simp)
    · rw [if_neg hk]
      rcases ih with h | ⟨h1, h2⟩
      · exact Or.inl (by simp [h])
      · refine Or.inr ⟨by simp [h1], ?_⟩
        simp only [List.map_cons, List.mem_cons, not_or]
        exact ⟨fun hh => hk hh.symm, h2⟩

theorem wsDisconnect_entries_ne_nil (m : ConnMap) (t : String) (w : Nat)
    (hm : ∀ p ∈ m, p.2 ≠ ([] : List Nat)) :
    ∀ p ∈ wsDisconnect m t w, p.2 ≠ ([] : List Nat) := by
  induction m with
  | nil => intro p hp; simp [wsDisconnect] at hp
  | cons q r ih =>
    obtain ⟨k, sset⟩ := q
    intro p hp
    unfold wsDisconnect at hp
    split_ifs at hp with hk he
    · exact hm p (List.mem_cons_of_mem _ hp)
    · rcases List.mem_cons.mp hp with h | h
      · subst h
        simpa using he
      · exact hm p (List.mem_cons_of_mem _ h)
    · rcases List.mem_cons.mp hp with h | h
      · subst h
        exact hm (k, sset) (by simp)
      · exact ih (fun q hq => hm q (List.mem_cons_of_mem _ hq)) p h

theorem wsDisconnect_keys_sublist (m : ConnMap) (t : String) (w : Nat) :
    List.Sublist ((wsDisconnect m t w).map Prod.fst) (m.map Prod.fst) := by
  induction m with
  | nil => simp [wsDisconnect]
  | cons q r ih =>
    obtain ⟨k, sset⟩ := q
    unfold wsDisconnect
    split_ifs with hk he
    · exact List.sublist_cons_self _ _
    · simp
    · simpa using ih.cons₂ k

theorem wsBroadcast_entries_ne_nil (m : ConnMap) (t : String) (fails : Nat → Bool)
    (hm : ∀ p ∈ m, p.2 ≠ ([] : List Nat)) :
    ∀ p ∈ wsBroadcast m t fails, p.2 ≠ ([] : List Nat) := by
  induction m with
  | nil => intro p hp; simp [wsBroadcast] at hp
  | cons q r ih =>
    obtain ⟨k, sset⟩ := q
    intro p hp
    unfold wsBroadcast at hp
    split_ifs at hp with hk he
    · exact hm p (List.mem_cons_of_mem _ hp)
    · rcases List.mem_cons.mp hp with h | h
      · subst h
        simpa using he
      · exact hm p (List.mem_cons_of_mem _ h)
    · rcases List.mem_cons.mp hp with h | h
      · subst h
        exact hm (k, sset) (by simp)
      · exact ih (fun q hq => hm q (List.mem_cons_of_mem _ hq)) p h

theorem wsBroadcast_keys_sublist (m : ConnMap) (t : String) (fails : Nat → Bool) :
    List.Sublist ((wsBroadcast m t fails).map Prod.fst) (m.map Prod.fst) := by
  induction m with
  | nil => simp [wsBroadcast]
  | cons q r ih =>
    obtain ⟨k, sset⟩ := q
    unfold wsBroadcast
    split_ifs with hk he
    · exact List.sublist_cons_self _ _
    · simp
    · simpa using ih.cons₂ k

theorem lookupConns_eq_none (m : ConnMap) (t : String)
    (h : t ∉ m.map Prod.fst) : lookupConns m t = none := by
  induction m with
  | nil => rfl
  | cons q r ih =>
    obtain ⟨k, sset⟩ := q
    unfold lookupConns
    rw [if_neg, ih]
    · intro hr
      exact h (by simp [hr])
    · intro hk
      exact h (by simp [hk])

theorem lookup_addConn_self (m : ConnMap) (t : String) (w : Nat) :
    ∃ s, lookupConns (addConn m t w) t = some s ∧ w ∈ s := by
  induction m with
  | nil => exact ⟨[w], by simp [addConn, lookupConns], by simp⟩
  | cons q r ih =>
    obtain ⟨k, sset⟩ := q
    unfold addConn
    by_cases hk : k = t
    · subst hk
      rw [if_pos rfl]
      by_cases hw : w ∈ sset
      · exact ⟨sset, by simp [lookupConns, hw], hw⟩
      · exact ⟨sset ++ [w], by simp [lookupConns, hw], by simp⟩
    · rw [if_neg hk]
      obtain ⟨s, hs, hw⟩ := ih
      refine ⟨s, ?_, hw⟩
      unfold lookupConns
      rw [if_neg hk]
      exact hs

theorem lookup_addConn_other (m : ConnMap) (t t' : String) (w : Nat)
    (h : t' ≠ t) : lookupConns (addConn m t w) t' = lookupConns m t' := by
  have ht : ¬ (t = t') := fun hh => h hh.symm
  induction m with
  | nil =>
    unfold addConn lookupConns
    rw [if_neg ht]
    rfl
  | cons q r ih =>
    obtain ⟨k, sset⟩ := q
    unfold addConn
    by_cases hk : k = t
    · rw [if_pos hk]
      have hkt : ¬ (k = t') := fun hh => ht (hk ▸ hh)
      unfold lookupConns
      rw [if_neg hkt, if_neg hkt]
    · rw [if_neg hk]
      unfold lookupConns
      by_cases hk' : k = t'
      · rw [if_pos hk', if_pos hk']
      · rw [if_neg hk', if_neg hk']
        exact ih

theorem lookup_wsDisconnect_other (m : ConnMap) (t t' : String) (w : Nat)
    (h : t' ≠ t) : lookupConns (wsDisconnect m t w) t' = lookupConns m t' := by
  have ht : ¬ (t = t') := fun hh => h hh.symm
  induction m with
  | nil => rfl
  | cons q r ih =>
    obtain ⟨k, sset⟩ := q
    unfold wsDisconnect
    split_ifs with hk he
    · have hkt : ¬ (k = t') := fun hh => ht (hk ▸ hh)
      conv_rhs => unfold lookupConns
      rw [if_neg hkt]
    · have hkt : ¬ (k = t') := fun hh => ht (hk ▸ hh)
      unfold lookupConns
      rw [if_neg hkt, if_neg hkt]
    · unfold lookupConns
      by_cases hk' : k = t'
      · rw [if_pos hk', if_pos hk']
      · rw [if_neg hk', if_neg hk']
        exact ih

theorem lookup_wsDisconnect_self (m : ConnMap) (t : String) (w : Nat)
    (hnd : (m.map Prod.fst).Nodup) (s : List Nat)
    (h : lookupConns m t = some s) :
    lookupConns (wsDisconnect m t w) t =
      if s.filter (fun x => x ≠ w) = [] then none
      else some (s.filter (fun x => x ≠ w)) := by
  induction m with
  | nil => simp [lookupConns] at h
  | cons q r ih =>
    obtain ⟨k, sset⟩ := q
    have hnd' : (k :: r.map Prod.fst).Nodup := by simpa using hnd
    obtain ⟨hk0, hr0⟩ := List.nodup_cons.mp hnd'
    by_cases hk : k = t
    · have hs : sset = s := by
        unfold lookupConns at h
        rw [if_pos hk] at h
        exact Option.some.inj h
      subst hs
      unfold wsDisconnect
      rw [if_pos hk]
      by_cases he : sset.filter (fun x => x ≠ w) = []
      · rw [if_pos he, if_pos he]
        exact lookupConns_eq_none r t (hk ▸ hk0)
      · rw [if_neg he, if_neg he]
        unfold lookupConns
        rw [if_pos hk]
    · unfold wsDisconnect
      rw [if_neg hk]
      unfold lookupConns at h ⊢
      rw [if_neg hk] at h ⊢
      exact ih (by simpa using hr0) h

theorem lookup_wsBroadcast_other (m : ConnMap) (t t' : String)
    (fails : Nat → Bool) (h : t' ≠ t) :
    lookupConns (wsBroadcast m t fails) t' = lookupConns m t' := by
  have ht : ¬ (t = t') := fun hh => h hh.symm
  induction m with
  | nil => rfl
  | cons q r ih =>
    obtain ⟨k, sset⟩ := q
    unfold wsBroadcast
    split_ifs with hk he
    · have hkt : ¬ (k = t') := fun hh => ht (hk ▸ hh)
      conv_rhs => unfold lookupConns
      rw [if_neg hkt]
    · have hkt : ¬ (k = t') := fun hh => ht (hk ▸ hh)
      unfold lookupConns
      rw [if_neg hkt, if_neg hkt]
    · unfold lookupConns
      by_cases hk' : k = t'
      · rw [if_pos hk', if_pos hk']
      · rw [if_neg hk', if_neg hk']
        exact ih

theorem lookup_wsBroadcast_self (m : ConnMap) (t : String) (fails : Nat → Bool)
    (hnd : (m.map Prod.fst).Nodup) (s : List Nat)
    (h : lookupConns m t = some s) :
    lookupConns (wsBroadcast m t fails) t =
      if s.filter (fun x => ¬ fails x) = [] then none
      else some (s.filter (fun x => ¬ fails x)) := by
  induction m with
  | nil => simp [lookupConns] at h
  | cons q r ih =>
    obtain ⟨k, sset⟩ := q
    have hnd' : (k :: r.map Prod.fst).Nodup := by simpa using hnd
    obtain ⟨hk0, hr0⟩ := List.nodup_cons.mp hnd'
    by_cases hk : k = t
    · have hs : sset = s := by
        unfold lookupConns at h
        rw [if_pos hk] at h
        exact Option.some.inj h
      subst hs
      unfold wsBroadcast
      rw [if_pos hk]
      by_cases he : sset.filter (fun x => ¬ fails x) = []
      · rw [if_pos he, if_pos he]
        exact lookupConns_eq_none r t (hk ▸ hk0)
      · rw [if_neg he, if_neg he]
        unfold lookupConns
        rw [if_pos hk]
    · unfold wsBroadcast
      rw [if_neg hk]
      unfold lookupConns at h ⊢
      rw [if_neg hk] at h ⊢
      exact ih (by simpa using hr0) h

theorem connMapInv_addConn (m : ConnMap) (t : String) (w : Nat)
    (hm : connMapInv m) : connMapInv (addConn m t w) := by
  obtain ⟨h1, h2⟩ := hm
  refine ⟨addConn_entries_ne_nil m t w h1, ?_⟩
  rcases addConn_keys m t w with h | ⟨hkeys, habs⟩
  · rw [h]; exact h2
  · rw [hkeys]
    simp only [List.nodup_append, List.nodup_cons, List.not_mem_nil,
      not_false_eq_true, List.nodup_nil, and_true, true_and]
    exact ⟨h2, fun a ha hb => habs (by simpa [List.mem_singleton.mp hb] using ha)⟩

/-- **C9** (amended).  `connect` admits after a task-existence check only:
the verification returns `true` for every task state regardless of the
caller's identity, so the admission decision and the resulting map are
identical for any two subscriber identities, and every subscriber is
admitted. -/
theorem C9_connect_admission_amended (m : ConnMap) (state : CeleryState)
    (t u1 u2 : String) (w : Nat) :
    verifyTaskOwnership state u1 = true ∧
    wsConnect m state t u1 w = wsConnect m state t u2 w ∧
    (wsConnect m state t u1 w).admitted = true ∧
    (wsConnect m state t u1 w).map = addConn m t w := by
  cases state <;> exact ⟨rfl, rfl, rfl, rfl⟩

/-- **C9** (counterexample).  Two distinct subscriber identities are both
admitted to the same existing (terminal-`SUCCESS`) job, so at least one
subscriber who does not own the job is admitted rather than rejected: the
admission decision does not depend on the subscriber's identity or any
ownership record. -/
theorem C9_connect_admission_counterexample :
    (wsConnect [] CeleryState.SUCCESS "job1" "alice" 1).admitted = true ∧
    (wsConnect [] CeleryState.SUCCESS "job1" "mallory" 2).admitted = true ∧
    "alice" ≠ "mallory" :=
  ⟨rfl, rfl, by decide⟩

/-- **C10**.  The subscriber-map invariant (every tracked job id holds a
non-empty connection set, job ids unduplicated) is preserved by connect,
disconnect and fan-out pruning; connect tracks the new connection under its
job id and leaves other job ids unchanged; disconnect removes exactly the
given connection, deletes the key when its set empties, and leaves other job
ids unchanged; fan-out prunes exactly the failed connections of the one job
id, deletes the key when none remain, and leaves other job ids unchanged. -/
theorem C10_subscriber_map_invariant (m : ConnMap) (state : CeleryState)
    (t t' : String) (u : String) (w : Nat) (fails : Nat → Bool)
    (hm : connMapInv m) :
    connMapInv (wsConnect m state t u w).map ∧
    connMapInv (wsDisconnect m t w) ∧
    connMapInv (wsBroadcast m t fails) ∧
    (∃ s, lookupConns (wsConnect m state t u w).map t = some s ∧ w ∈ s) ∧
    (t' ≠ t → lookupConns (wsConnect m state t u w).map t' = lookupConns m t') ∧
    (t' ≠ t → lookupConns (wsDisconnect m t w) t' = lookupConns m t') ∧
    (∀ s, lookupConns m t = some s →
      lookupConns (wsDisconnect m t w) t =
        if s.filter (fun x => x ≠ w) = [] then none
        else some (s.filter (fun x => x ≠ w))) ∧
    (t' ≠ t → lookupConns (wsBroadcast m t fails) t' = lookupConns m t') ∧
    (∀ s, lookupConns m t = some s →
      lookupConns (wsBroadcast m t fails) t =
        if s.filter (fun x => ¬ fails x) = [] then none
        else some (s.filter (fun x => ¬ fails x))) := by
  obtain ⟨h1, h2⟩ := hm
  rw [wsConnect_map_eq]
  refine ⟨connMapInv_addConn m t w ⟨h1, h2⟩,
    ⟨wsDisconnect_entries_ne_nil m t w h1,
     ((wsDisconnect_keys_sublist m t w).nodup h2)⟩,
    ⟨wsBroadcast_entries_ne_nil m t fails h1,
     ((wsBroadcast_keys_sublist m t fails).nodup h2)⟩,
    lookup_addConn_self m t w,
    fun h => lookup_addConn_other m t t' w h,
    fun h => lookup_wsDisconnect_other m t t' w h,
    fun s hs => lookup_wsDisconnect_self m t w h2 s hs,
    fun h => lookup_wsBroadcast_other m t t' fails h,
    fun s hs => lookup_wsBroadcast_self m t fails h2 s hs⟩

/-- **C10** (witness). -/
theorem C10_subscriber_map_invariant_witness :
    connMapInv (wsConnect [("a", [1])] CeleryState.PROGRESS "b" "u" 7 |>.map) ∧
    (∃ s, lookupConns (wsConnect [("a", [1])] CeleryState.PROGRESS "b" "u" 7 |>.map) "b"
        = some s ∧ 7 ∈ s) ∧
    lookupConns (wsDisconnect [("a", [1])] "b" 7) "a" = lookupConns [("a", [1])] "a" ∧
    lookupConns (wsBroadcast [("a", [1])] "a" (fun _ => true)) "a" =
      (if ([1] : List Nat).filter (fun x => ¬ (fun _ => true) x) = [] then none
       else some (([1] : List Nat).filter (fun x => ¬ (fun _ => true) x))) := by
  refine ⟨?_, ?_, ?_, ?_⟩
  · exact (C10_subscriber_map_invariant [("a", [1])] CeleryState.PROGRESS "b" "a" "u" 7
      (fun _ => true) ⟨by simp, by simp⟩).1
  · exact (C10_subscriber_map_invariant [("a", [1])] CeleryState.PROGRESS "b" "a" "u" 7
      (fun _ => true) ⟨by simp, by simp⟩).2.2.2.1
  · exact (C10_subscriber_map_invariant [("a", [1])] CeleryState.PROGRESS "b" "a" "u" 7
      (fun _ => true) ⟨by simp, by simp⟩).2.2.2.2.2.1 (by decide)
  · exact (C10_subscriber_map_invariant [("a", [1])] CeleryState.PROGRESS "a" "b" "u" 7
      (fun _ => true) ⟨by simp, by simp⟩).2.2.2.2.2.2.2.2 [1] rfl

/-! ### Recipe-JSON recovery lemmas -/

theorem dropLit_append_self (lit r : List Char) : dropLit lit (lit ++ r) = some r := by
  induction lit with
  | nil => rfl
  | cons a as ih => simp [dropLit, ih]

theorem dropLit_length_le (lit l r : List Char) (h : dropLit lit l = some r) :
    r.length ≤ l.length := by
  induction lit generalizing l with
  | nil =>
    obtain rfl : l = r := Option.some.inj h
    exact le_refl _
  | cons a as ih =>
    match l with
    | [] => exact absurd h (by simp [dropLit])
    | b :: bs =>
      unfold dropLit at h
      split_ifs at h with hab
      have := ih bs h
      simp only [List.length_cons]
      omega

theorem findLit_length_le (lit l r : List Char) (h : findLit lit l = some r) :
    r.length ≤ l.length := by
  induction l with
  | nil =>
    unfold findLit at h
    split at h
    · next r0 hd =>
      obtain rfl := Option.some.inj h
      exact dropLit_length_le _ _ _ hd
    · simp at h
  | cons c t ih =>
    unfold findLit at h
    split at h
    · next hd =>
      obtain rfl := Option.some.inj h
      exact dropLit_length_le _ _ _ hd
    · have := ih h
      simp only [List.length_cons]
      omega

theorem lazyBodyScan_head (lit acc l g : List Char)
    (h : lazyBodyScan lit acc l = some g) : g.head? = some '\x7b' := by
  induction l generalizing acc with
  | nil => simp [lazyBodyScan] at h
  | cons c t ih =>
    unfold lazyBodyScan at h
    split_ifs at h
    · obtain rfl := Option.some.inj h
      rfl
    · exact ih _ h

theorem matchAtP1_head (l g : List Char) (h : matchAtP1 l = some g) :
    g.head? = some '\x7b' := by
  unfold matchAtP1 at h
  split at h
  · simp at h
  · split at h
    · exact lazyBodyScan_head _ _ _ _ h
    · simp at h

theorem matchAtP2_head (l g : List Char) (h : matchAtP2 l = some g) :
    g.head? = some '\x7b' := by
  unfold matchAtP2 at h
  split at h
  · simp at h
  · split at h
    · exact lazyBodyScan_head _ _ _ _ h
    · simp at h

theorem take_head_brace (t g : List Char) (n : Nat) (hn : 1 ≤ n)
    (hg : ('\x7b' :: t).take n = g) : g.head? = some '\x7b' := by
  obtain ⟨m, rfl⟩ : ∃ m, n = m + 1 := ⟨n - 1, by omega⟩
  subst hg
  rfl

theorem matchAtP3_head (l g : List Char) (h : matchAtP3 l = some g) :
    g.head? = some '\x7b' := by
  unfold matchAtP3 at h
  split at h
  · next t =>
    split at h
    · next r2 h2 =>
      split at h
      · next r3 h3 =>
        split at h
        · next r4 h4 =>
          obtain rfl := Option.some.inj h
          have l2 := findLit_length_le _ _ _ h2
          have l3 := findLit_length_le _ _ _ h3
          have l4 := findLit_length_le _ _ _ h4
          refine take_head_brace t _ _ ?_ rfl
          simp only [List.length_cons] at *
          omega
        · simp at h
      · simp at h
    · simp at h
  · simp at h

theorem matchAtP4_head (l g : List Char) (h : matchAtP4 l = some g) :
    g.head? = some '\x7b' := by
  unfold matchAtP4 at h
  split at h
  · next t =>
    split at h
    · next r hr =>
      obtain rfl := Option.some.inj h
      have l2 := findLit_length_le _ _ _ hr
      refine take_head_brace t _ _ ?_ rfl
      simp only [List.length_cons] at *
      omega
    · simp at h
  · simp at h

theorem searchFor_head (m : List Char → Option (List Char))
    (hm : ∀ l g, m l = some g → g.head? = some '\x7b')
    (l g : List Char) (h : searchFor m l = some g) : g.head? = some '\x7b' := by
  induction l with
  | nil => exact hm _ _ h
  | cons c t ih =>
    unfold searchFor at h
    split at h
    · next hd =>
      obtain rfl := Option.some.inj h
      exact hm _ _ hd
    · exact ih h

theorem parseMembers_obj (fuel : Nat) (l : List Char)
    (acc : List (List Char × Jval)) (v : Jval) (r : List Char)
    (h : parseMembers fuel l acc = some (v, r)) : ∃ kvs, v = Jval.obj kvs := by
  induction fuel generalizing l acc v r with
  | zero => simp [parseMembers] at h
  | succ fuel ih =>
    unfold parseMembers at h
    split at h
    · split at h
      · split at h
        · split at h
          · split at h
            · exact ih _ _ _ _ h
            · simp only [Option.some.injEq, Prod.mk.injEq] at h
              exact ⟨_, h.1.symm⟩
            · simp at h
          · simp at h
        · simp at h
      · simp at h
    · simp at h

theorem parseValue_obj (fuel : Nat) (t : List Char) (v : Jval) (r : List Char)
    (h : parseValue fuel ('\x7b' :: t) = some (v, r)) : ∃ kvs, v = Jval.obj kvs := by
  match fuel with
  | 0 => simp [parseValue] at h
  | fuel + 1 =>
    have h2 : (match t.dropWhile isJsonWs with
        | '\x7d' :: r => some (Jval.obj ([] : List (List Char × Jval)), r)
        | _ => parseMembers fuel (t.dropWhile isJsonWs) []) = some (v, r) := h
    split at h2
    · simp only [Option.some.injEq, Prod.mk.injEq] at h2
      exact ⟨[], h2.1.symm⟩
    · exact parseMembers_obj _ _ _ _ _ h2

theorem dropWhile_of_head_neg (p : Char → Bool) (l : List Char) (c : Char)
    (hc : l.head? = some c) (hp : p c = false) : l.dropWhile p = l := by
  match l, hc with
  | c :: t, rfl =>
    rw [List.dropWhile_cons, if_neg (by simp [hp])]

theorem jsonLoads_obj (l : List Char) (v : Jval)
    (hh : l.head? = some '\x7b') (h : jsonLoads l = some v) :
    ∃ kvs, v = Jval.obj kvs := by
  unfold jsonLoads at h
  rw [dropWhile_of_head_neg isJsonWs l '\x7b' hh rfl] at h
  match l, hh with
  | _ :: t, rfl =>
    split at h
    · next val rest hp =>
      split_ifs at h
      obtain rfl := Option.some.inj h
      exact parseValue_obj _ _ _ _ hp
    · simp at h

theorem firstPatternParse_obj (content : List Char) (v : Jval)
    (h : firstPatternParse jsonPatterns content = some v) :
    ∃ kvs, v = Jval.obj kvs := by
  have step :
      ∀ (m : List Char → Option (List Char))
        (ps : List (List Char → Option (List Char))),
        (∀ l g, m l = some g → g.head? = some '\x7b') →
        (∀ w, firstPatternParse ps content = some w → ∃ kvs, w = Jval.obj kvs) →
        ∀ w, firstPatternParse (m :: ps) content = some w →
          ∃ kvs, w = Jval.obj kvs := by
    intro m ps hm hps w hw
    unfold firstPatternParse at hw
    split at hw
    · next g hg =>
      split at hw
      · next val hval =>
        obtain rfl := Option.some.inj hw
        exact jsonLoads_obj _ _ (hm _ _ hg) hval
      · exact hps _ hw
    · exact hps _ hw
  have hnil : ∀ w, firstPatternParse [] content = some w → ∃ kvs, w = Jval.obj kvs := by
    intro w hw
    simp [firstPatternParse] at hw
  unfold jsonPatterns at h
  refine step _ _ (searchFor_head _ matchAtP1_head)
    (step _ _ (searchFor_head _ matchAtP2_head)
      (step _ _ (searchFor_head _ matchAtP3_head)
        (step _ _ (searchFor_head _ matchAtP4_head) hnil))) _ h

theorem parseRecipeJson_obj (content : List Char) :
    ∃ kvs, parseRecipeJson content = Jval.obj kvs := by
  unfold parseRecipeJson
  split_ifs with hguard
  · cases hload : jsonLoads content with
    | none => exact ⟨_, rfl⟩
    | some v =>
      obtain ⟨kvs, rfl⟩ := jsonLoads_obj content v hguard.1 hload
      exact ⟨kvs, rfl⟩
  · cases hfp : firstPatternParse jsonPatterns content with
    | none => exact ⟨_, rfl⟩
    | some v =>
      obtain ⟨kvs, rfl⟩ := firstPatternParse_obj content v hfp
      exact ⟨kvs, rfl⟩

theorem jGet_objInsert_self (kvs : List (List Char × Jval)) (k : List Char)
    (v : Jval) : jGet (objInsert kvs k v) k = some v := by
  induction kvs with
  | nil => simp [objInsert, jGet]
  | cons q r ih =>
    obtain ⟨k', v'⟩ := q
    unfold objInsert
    by_cases hk : k' = k
    · rw [if_pos hk]
      unfold jGet
      rw [if_pos hk]
    · rw [if_neg hk]
      unfold jGet
      rw [if_neg hk]
      exact ih

theorem jGet_objInsert_other (kvs : List (List Char × Jval)) (k k' : List Char)
    (v : Jval) (h : k' ≠ k) :
    jGet (objInsert kvs k v) k' = jGet kvs k' := by
  induction kvs with
  | nil =>
    unfold objInsert jGet
    rw [if_neg (fun hh => h hh.symm)]
    rfl
  | cons q r ih =>
    obtain ⟨k0, v0⟩ := q
    unfold objInsert
    by_cases hk : k0 = k
    · rw [if_pos hk]
      unfold jGet
      by_cases hk' : k0 = k'
      · exact absurd (hk' ▸ hk) (fun hh => h hh)
      · rw [if_neg hk', if_neg hk']
    · rw [if_neg hk]
      unfold jGet
      by_cases hk' : k0 = k'
      · rw [if_pos hk', if_pos hk']
      · rw [if_neg hk', if_neg hk']
        exact ih

theorem validate_wellTyped (kvs : List (List Char × Jval)) :
    ∃ kvs', validateRecipeStructure (Jval.obj kvs) = Jval.obj kvs' ∧
      isJStr (jGet kvs' "title".data) = true ∧
      isJList (jGet kvs' "ingredients".data) = true ∧
      isJList (jGet kvs' "steps".data) = true := by
  unfold validateRecipeStructure
  refine ⟨_, rfl, ?_, ?_, ?_⟩
  all_goals
    split_ifs with h1 h2 h3 <;>
      simp_all [jGet_objInsert_self, jGet_objInsert_other, isJStr, isJList]

/-- **C6** (amended).  The parser is total and never propagates a failure:
every input yields a JSON object; the *validation step*
(`_validate_recipe_structure`, applied by the response-processing path)
guarantees the string title and the two lists; and when the direct parse does
not apply and all four cascade strategies fail, the parser returns the
placeholder recipe whose sole step is the human-readable explanation.  (The
parser alone may return an object lacking the fields — see the
counterexample.) -/
theorem C6_parser_total_amended :
    (∀ content : List Char, ∃ kvs,
      validateRecipeStructure (parseRecipeJson content) = Jval.obj kvs ∧
      isJStr (jGet kvs "title".data) = true ∧
      isJList (jGet kvs "ingredients".data) = true ∧
      isJList (jGet kvs "steps".data) = true) ∧
    (∀ content : List Char,
      ¬ (content.head? = some '\x7b' ∧ content.getLast? = some '\x7d') →
      firstPatternParse jsonPatterns content = none →
      parseRecipeJson content = fallbackRecipe "Konnte JSON nicht parsen".data) ∧
    (∀ content : List Char,
      content.head? = some '\x7b' → content.getLast? = some '\x7d' →
      jsonLoads content = none →
      parseRecipeJson content = fallbackRecipe "JSON parsing fehlgeschlagen".data) := by
  refine ⟨?_, ?_, ?_⟩
  · intro content
    obtain ⟨kvs, hk⟩ := parseRecipeJson_obj content
    rw [hk]
    exact validate_wellTyped kvs
  · intro content hguard hnone
    unfold parseRecipeJson
    rw [if_neg hguard, hnone]
  · intro content h1 h2 hnone
    unfold parseRecipeJson
    rw [if_pos ⟨h1, h2⟩, hnone]

/-- **C6** (witness). -/
theorem C6_parser_total_witness :
    parseRecipeJson "no json here".data =
      fallbackRecipe "Konnte JSON nicht parsen".data :=
  C6_parser_total_amended.2.1 "no json here".data (by decide) (by rfl)

/-- **C6** (counterexample).  On the response `{"x":1}` the parser returns
the parsed object itself, which has no `title`, `ingredients` or `steps`
field at all — the claim that the returned recipe always has a string title
and the two lists fails for the parser by itself. -/
theorem C6_parser_total_counterexample :
    parseRecipeJson "\x7b\"x\":1\x7d".data =
      Jval.obj [("x".data, Jval.num "1".data)] ∧
    jGet [(("x".data : List Char), Jval.num "1".data)] "title".data = none ∧
    jGet [(("x".data : List Char), Jval.num "1".data)] "ingredients".data = none ∧
    jGet [(("x".data : List Char), Jval.num "1".data)] "steps".data = none :=
  ⟨rfl, rfl, rfl, rfl⟩

theorem dropLit_cons_ne (a c : Char) (as l : List Char) (h : ¬ a = c) :
    dropLit (a :: as) (c :: l) = none := by
  simp [dropLit, h]

theorem matchAtP1_cons_ne (c : Char) (l : List Char) (hc : c ≠ '\x60') :
    matchAtP1 (c :: l) = none := by
  have hd : dropLit fenceJson (c :: l) = none :=
    dropLit_cons_ne '\x60' c ['\x60', '\x60', 'j', 's', 'o', 'n'] l
      (fun hh => hc hh.symm)
  unfold matchAtP1
  rw [hd]

theorem searchFor_matchAtP1_skip (pre rest : List Char)
    (hpre : ∀ c ∈ pre, c ≠ '\x60') :
    searchFor matchAtP1 (pre ++ rest) = searchFor matchAtP1 rest := by
  induction pre with
  | nil => rfl
  | cons c pre' ih =>
    have hc : c ≠ '\x60' := hpre c (by simp)
    show searchFor matchAtP1 (c :: (pre' ++ rest)) = _
    conv_lhs => unfold searchFor
    rw [matchAtP1_cons_ne c _ hc]
    exact ih (fun d hd => hpre d (by simp [hd]))

theorem searchFor_eq_of_match (m : List Char → Option (List Char))
    (l g : List Char) (h : m l = some g) : searchFor m l = some g := by
  match l with
  | [] =>
    unfold searchFor
    exact h
  | c :: t =>
    unfold searchFor
    rw [h]

theorem dropLit_fence3_after_ws (u' tail : List Char)
    (hu : ∀ c ∈ u', c ≠ '\x60') :
    dropLit fence3 ((u' ++ ('\x7d' :: tail)).dropWhile isPyWs) = none := by
  rw [List.dropWhile_append]
  split_ifs with hemp
  · rw [List.dropWhile_cons, if_neg (by decide)]
    exact dropLit_cons_ne _ _ _ _ (by decide)
  · cases hd : u'.dropWhile isPyWs with
    | nil => simp [hd] at hemp
    | cons d rest =>
      have hdmem : d ∈ u' :=
        (List.dropWhile_sublist isPyWs).subset (hd ▸ List.mem_cons_self d rest)
      exact dropLit_cons_ne '\x60' d ['\x60', '\x60'] (rest ++ ('\x7d' :: tail))
        (fun hh => hu d hdmem hh.symm)

theorem lazyBodyScan_append (u tail acc : List Char)
    (hu : ∀ c ∈ u, c ≠ '\x60')
    (htail : (dropLit fence3 (tail.dropWhile isPyWs)).isSome = true) :
    lazyBodyScan fence3 acc (u ++ ('\x7d' :: tail)) =
      some ('\x7b' :: (acc.reverse ++ (u ++ ['\x7d']))) := by
  induction u generalizing acc with
  | nil =>
    show lazyBodyScan fence3 acc ('\x7d' :: tail) = _
    unfold lazyBodyScan
    rw [if_pos ⟨rfl, htail⟩]
    simp
  | cons c u' ih =>
    have hu' : ∀ d ∈ u', d ≠ '\x60' := fun d hd => hu d (by simp [hd])
    show lazyBodyScan fence3 acc (c :: (u' ++ ('\x7d' :: tail))) = _
    unfold lazyBodyScan
    rw [if_neg ?hcond]
    case hcond =>
      rintro ⟨hc7d, hsome⟩
      rw [dropLit_fence3_after_ws u' tail hu'] at hsome
      simp at hsome
    rw [ih (c :: acc) hu']
    simp

theorem matchAtP1_fence (u tail : List Char)
    (hu : ∀ c ∈ u, c ≠ '\x60')
    (htail : (dropLit fence3 (tail.dropWhile isPyWs)).isSome = true) :
    matchAtP1 (fenceJson ++ ('\n' :: ('\x7b' :: (u ++ ('\x7d' :: tail))))) =
      some ('\x7b' :: (u ++ ['\x7d'])) := by
  have hdw : ('\n' :: ('\x7b' :: (u ++ ('\x7d' :: tail)))).dropWhile isPyWs
      = '\x7b' :: (u ++ ('\x7d' :: tail)) := by
    rw [List.dropWhile_cons, if_pos (by decide), List.dropWhile_cons, if_neg (by decide)]
  simp only [matchAtP1, dropLit_append_self, hdw]
  rw [lazyBodyScan_append u tail [] hu htail]
  simp

theorem eq_append_getLast (l : List Char) (c : Char) (h : l.getLast? = some c) :
    ∃ u, l = u ++ [c] := by
  match l with
  | [] => simp at h
  | a :: t =>
    have hne : a :: t ≠ ([] : List Char) := by simp
    refine ⟨(a :: t).dropLast, ?_⟩
    have h2 := List.dropLast_append_getLast hne
    have h3 : (a :: t).getLast hne = c := by
      rw [List.getLast?_eq_getLast _ hne] at h
      exact Option.some.inj h
    rw [h3] at h2
    exact h2.symm

theorem brace_decomp (objText : List Char) (hh : objText.head? = some '\x7b')
    (hl : objText.getLast? = some '\x7d') :
    ∃ u, objText = '\x7b' :: (u ++ ['\x7d']) := by
  obtain ⟨u0, rfl⟩ := eq_append_getLast _ _ hl
  match u0, hh with
  | [], hh => exact absurd hh (by decide)
  | c :: u, hh =>
    simp only [List.cons_append, List.head?_cons, Option.some.injEq] at hh
    subst hh
    exact ⟨u, rfl⟩

/-- **C7**.  Round-trip of the response parser: a response that is itself a
syntactically valid JSON object with `title`, `ingredients` and `steps`
fields parses to that object via the direct path; and a response wrapping the
same object in a ```` ```json ```` fenced code block (after any
backtick-free prefix) parses to the same object via the fenced-block
fallback path. -/
theorem C7_parse_roundtrip :
    (∀ (content : List Char) (kvs : List (List Char × Jval)),
      content.head? = some '\x7b' →
      content.getLast? = some '\x7d' →
      (jGet kvs "title".data).isSome = true →
      (jGet kvs "ingredients".data).isSome = true →
      (jGet kvs "steps".data).isSome = true →
      jsonLoads content = some (Jval.obj kvs) →
      parseRecipeJson content = Jval.obj kvs) ∧
    (∀ (pre objText : List Char) (kvs : List (List Char × Jval)),
      (∀ c ∈ pre, c ≠ '\x60') →
      (∀ c ∈ objText, c ≠ '\x60') →
      objText.head? = some '\x7b' →
      objText.getLast? = some '\x7d' →
      (jGet kvs "title".data).isSome = true →
      (jGet kvs "ingredients".data).isSome = true →
      (jGet kvs "steps".data).isSome = true →
      jsonLoads objText = some (Jval.obj kvs) →
      parseRecipeJson
        (pre ++ (fenceJson ++ ('\n' :: (objText ++ ('\n' :: fence3))))) =
        Jval.obj kvs) := by
  constructor
  · intro content kvs h1 h2 _ _ _ hload
    unfold parseRecipeJson
    rw [if_pos ⟨h1, h2⟩, hload]
  · intro pre objText kvs hpre hobjnb hh hl _ _ _ hload
    obtain ⟨u, rfl⟩ := brace_decomp objText hh hl
    have hu : ∀ c ∈ u, c ≠ '\x60' := fun c hc => hobjnb c (by simp [hc])
    have hr : ('\x7b' :: (u ++ ['\x7d'])) ++ ('\n' :: fence3)
        = '\x7b' :: (u ++ ('\x7d' :: ('\n' :: fence3))) := by
      simp [List.append_assoc]
    rw [hr]
    have hm1 := matchAtP1_fence u ('\n' :: fence3) hu (by decide)
    have hsearch : searchFor matchAtP1
        (pre ++ (fenceJson ++ ('\n' :: ('\x7b' :: (u ++ ('\x7d' :: ('\n' :: fence3)))))))
        = some ('\x7b' :: (u ++ ['\x7d'])) := by
      rw [searchFor_matchAtP1_skip pre _ hpre]
      exact searchFor_eq_of_match _ _ _ hm1
    have hlast : (pre ++ (fenceJson ++ ('\n' :: ('\x7b' ::
        (u ++ ('\x7d' :: ('\n' :: fence3))))))).getLast? = some '\x60' := by
      have hsplit : pre ++ (fenceJson ++ ('\n' :: ('\x7b' ::
          (u ++ ('\x7d' :: ('\n' :: fence3))))))
          = (pre ++ (fenceJson ++ ('\n' :: ('\x7b' :: u)))) ++
            ('\x7d' :: ('\n' :: fence3)) := by
        simp [List.append_assoc]
      rw [hsplit, List.getLast?_append]
      rfl
    have hguard : ¬ ((pre ++ (fenceJson ++ ('\n' :: ('\x7b' ::
        (u ++ ('\x7d' :: ('\n' :: fence3))))))).head? = some '\x7b' ∧
        (pre ++ (fenceJson ++ ('\n' :: ('\x7b' ::
        (u ++ ('\x7d' :: ('\n' :: fence3))))))).getLast? = some '\x7d') := by
      rintro ⟨-, h2⟩
      rw [hlast] at h2
      exact absurd (Option.some.inj h2) (by decide)
    have hload' : jsonLoads ('\x7b' :: (u ++ ['\x7d'])) = some (Jval.obj kvs) := hload
    have hfp : firstPatternParse jsonPatterns
        (pre ++ (fenceJson ++ ('\n' :: ('\x7b' ::
          (u ++ ('\x7d' :: ('\n' :: fence3))))))) = some (Jval.obj kvs) := by
      simp only [jsonPatterns, firstPatternParse, hsearch, hload']
    unfold parseRecipeJson
    rw [if_neg hguard, hfp]

/-- **C7** (witness). -/
theorem C7_parse_roundtrip_witness :
    parseRecipeJson directRecipeText = directRecipeVal ∧
    parseRecipeJson ("Here is the recipe: ".data ++
      (fenceJson ++ ('\n' :: (directRecipeText ++ ('\n' :: fence3))))) =
      directRecipeVal := by
  constructor
  · exact C7_parse_roundtrip.1 directRecipeText
      [("title".data, Jval.str "X".data),
       ("ingredients".data, Jval.arr [Jval.str "a".data]),
       ("steps".data, Jval.arr [Jval.str "b".data])]
      rfl rfl rfl rfl rfl rfl
  · exact C7_parse_roundtrip.2 "Here is the recipe: ".data directRecipeText
      [("title".data, Jval.str "X".data),
       ("ingredients".data, Jval.arr [Jval.str "a".data]),
       ("steps".data, Jval.arr [Jval.str "b".data])]
      (by decide) (by decide) rfl rfl rfl rfl rfl rfl

end RecipeServer

